import Mathlib

/-!
Verification development for the beat-detection engine of this repository
(`detectBeatsFromVideo`, BPM-sync variant).

The engine's control logic — history buffers, adaptive thresholding, the
three-way vote, the minimum-separation guard, BPM estimation, the one-way
Unlocked→Locked transition and the locked-mode scheduler/emitter — is
embedded over ℚ, translated clause by clause from the source.

Spectral feature extraction (`getFloatFrequencyData`, `calculateSpectralFlux`,
`getEnergyInRange`, `calculateBandFlux`, `detectOnset`'s three-frame peak
arithmetic) works on floating-point spectra via `10^(dB/20)` and square roots;
its numeric outputs are not constrained by any property verified here, so each
tick's measured features arrive as the tick's input (`TickInput`): the weighted
total flux, the weighted total energy, the sub-bass..bass band energy, the
boolean result of the three-frame onset peak test, the sampled media time, and
the media element's playing flag (which the source's `analyze` never reads).
-/

namespace BeatDetect

/-- Sensitivity preset selector (`sensitivityMode: 'low' | 'medium' | 'high'`). -/
inductive SMode where
  | low
  | medium
  | high
deriving DecidableEq

/-- Embedding of `interface BeatDetectorConfig` (BPM-sync variant).  Frequency
bin ranges are pairs of bin indices; `historySize` and `beatsToAnalyze` are
buffer capacities, hence ℕ; all signal-level quantities are ℚ. -/
structure Config where
  fftSize : ℕ
  subBassRange : ℕ × ℕ
  bassRange : ℕ × ℕ
  lowMidRange : ℕ × ℕ
  midRange : ℕ × ℕ
  highMidRange : ℕ × ℕ
  highRange : ℕ × ℕ
  subBassWeight : ℚ
  bassWeight : ℚ
  lowMidWeight : ℚ
  midWeight : ℚ
  highMidWeight : ℚ
  highWeight : ℚ
  minBeatSeparation : ℚ
  energyThreshold : ℚ
  historySize : ℕ
  useOnsetDetection : Bool
  useEnergySpikes : Bool
  sensitivityMode : SMode
  beatsToAnalyze : ℕ
  bpmSyncEnabled : Bool

/-- Embedding of `DEFAULT_CONFIG`. -/
def DEFAULT_CONFIG : Config where
  fftSize := 2048
  subBassRange := (0, 4)
  bassRange := (4, 12)
  lowMidRange := (12, 24)
  midRange := (24, 48)
  highMidRange := (48, 96)
  highRange := (96, 180)
  subBassWeight := 1.5
  bassWeight := 2.0
  lowMidWeight := 1.0
  midWeight := 1.4
  highMidWeight := 0.8
  highWeight := 0.5
  minBeatSeparation := 0.35
  energyThreshold := 1.4
  historySize := 50
  useOnsetDetection := true
  useEnergySpikes := true
  sensitivityMode := SMode.medium
  beatsToAnalyze := 6
  bpmSyncEnabled := true

/-- One entry of `SENSITIVITY_PRESETS`. -/
structure SensPreset where
  energyThreshold : ℚ
  minBeatSeparation : ℚ

/-- Embedding of `SENSITIVITY_PRESETS`. -/
def SENSITIVITY_PRESETS : SMode → SensPreset
  | SMode.low => { energyThreshold := 1.8, minBeatSeparation := 0.5 }
  | SMode.medium => { energyThreshold := 1.4, minBeatSeparation := 0.35 }
  | SMode.high => { energyThreshold := 1.1, minBeatSeparation := 0.25 }

/-- Per-tick input: the spectral features the source derives from the current
frame before the decision logic runs, plus the sampled media time
(`videoEl.currentTime || 0`) and the media element's playing flag.  `onset` is
the boolean produced by the three-frame peak test inside `detectOnset` (before
its `useOnsetDetection` guard, which is kept in the embedding). -/
structure TickInput where
  flux : ℚ
  intensity : ℚ
  bassEnergy : ℚ
  onset : Bool
  time : ℚ
  playing : Bool
deriving DecidableEq

/-- Mutable state of one detector session: the three bounded history buffers,
`lastBeatTime` (where `none` models the initial `-Infinity`), the confirmed
beat-time buffer, and the tempo fields (`none` models `null`). -/
structure DState where
  fluxHistory : List ℚ
  energyHistory : List ℚ
  bassEnergyHistory : List ℚ
  lastBeatTime : Option ℚ
  beatTimes : List ℚ
  detectedBPM : Option ℚ
  bpmLocked : Bool
  nextScheduledBeat : Option ℚ
  bpmSyncStartTime : Option ℚ
deriving DecidableEq

/-- Initial session state (`lastBeatTime = -Infinity`, empty buffers,
`detectedBPM = null`, `bpmLocked = false`, `nextScheduledBeat = null`). -/
def initState : DState where
  fluxHistory := []
  energyHistory := []
  bassEnergyHistory := []
  lastBeatTime := none
  beatTimes := []
  detectedBPM := none
  bpmLocked := false
  nextScheduledBeat := none
  bpmSyncStartTime := none

/-- A beat delivered to the consumer callback: the two arguments of
`onBeat(time, intensity)` plus a ghost tag recording whether the firing came
from the locked-mode scheduler (used only to state properties). -/
structure Emit where
  time : ℚ
  intensity : ℚ
  fromLock : Bool
deriving DecidableEq

/-- The consumer callback `onBeat`; `Except.error` models a thrown exception. -/
def Cb : Type := ℚ → ℚ → Except String Unit

/-- A callback that never throws. -/
def cbOk : Cb := fun _ _ => Except.ok ()

/-- Embedding of `try { onBeat(...) } catch (e) { console.error(...) }`:
the thrown message is converted into a log line, nothing propagates. -/
def guardedCall (cb : Cb) (t i : ℚ) : List String :=
  match cb t i with
  | Except.ok _ => []
  | Except.error e => ["Beat callback error: " ++ e]

/-- Embedding of `h.push(x); if (h.length > cap) h.shift();` — append at the
back, evict one element from the front when over capacity. -/
def pushCap (cap : ℕ) (h : List ℚ) (x : ℚ) : List ℚ :=
  let h2 := h ++ [x]
  if cap < h2.length then h2.tail else h2

/-- Embedding of `while (l.length > cap) l.shift();`. -/
def trimFront (cap : ℕ) : List ℚ → List ℚ
  | [] => []
  | a :: rest => if (a :: rest).length ≤ cap then a :: rest else trimFront cap rest

/-- Embedding of `Math.max(...l)` for the nonempty lists it is applied to
(the empty case never arises at its call sites; `0` is a junk value). -/
def maxQ : List ℚ → ℚ
  | [] => 0
  | [a] => a
  | a :: b :: rest => max a (maxQ (b :: rest))

/-- Embedding of `x || 1` applied to the flux-history maximum (JS `||`
replaces a zero denominator by `1`). -/
def orOne (x : ℚ) : ℚ := if x = 0 then 1 else x

/-- Clamp into [0,1]: `Math.min(1, Math.max(0, x))`. -/
def clamp01 (x : ℚ) : ℚ := min 1 (max 0 x)

/-- Ascending insertion of one element into a sorted list. -/
def insertSorted (x : ℚ) : List ℚ → List ℚ
  | [] => [x]
  | a :: rest => if x ≤ a then x :: a :: rest else a :: insertSorted x rest

/-- Embedding of `[...l].sort((a, b) => a - b)` — ascending sort. -/
def sortQ : List ℚ → List ℚ
  | [] => []
  | a :: rest => insertSorted a (sortQ rest)

/-- Embedding of `sorted[Math.floor(sorted.length / 2)]` after sorting. -/
def medianQ (l : List ℚ) : ℚ := (sortQ l).getD ((sortQ l).length / 2) 0

/-- Embedding of `getAdaptiveThreshold`: `none` models the `Infinity` returned
while the history holds fewer than 5 samples; otherwise
`median + k * (1.4826 * MAD)` where `k = cfg.energyThreshold`. -/
def getAdaptiveThreshold (k : ℚ) (history : List ℚ) : Option ℚ :=
  if history.length < 5 then none
  else
    let median := medianQ history
    let deviations := history.map (fun v => |v - median|)
    let mad := (sortQ deviations).getD (deviations.length / 2) 0
    let robustStdDev := mad * 1.4826
    some (median + k * robustStdDev)

/-- Strict comparison of a value against an optional threshold
(`x > Infinity` is false, matching the JS comparison against the warm-up
value). -/
def gtThr (x : ℚ) : Option ℚ → Bool
  | none => false
  | some t => decide (t < x)

/-- Embedding of `isLocalMaximum`: the value must reach 98% of the maximum of
the last `windowSize` history samples, and the history must already hold at
least `windowSize` samples. -/
def isLocalMaximum (value : ℚ) (history : List ℚ) (windowSize : ℕ) : Bool :=
  if history.length < windowSize then false
  else
    let recent := history.drop (history.length - windowSize)
    decide (maxQ recent * 0.98 ≤ value)

/-- Embedding of `time - lastBeatTime > bound` where `lastBeatTime` may be the
initial `-Infinity` (in which case the elapsed time is `+Infinity` and the
comparison is true). -/
def sinceGt (time : ℚ) (lastBeatTime : Option ℚ) (bound : ℚ) : Bool :=
  match lastBeatTime with
  | none => true
  | some l => decide (bound < time - l)

/-- JS truthiness of the nullable number `detectedBPM`: both `null` and `0`
are falsy. -/
def optTruthy : Option ℚ → Bool
  | none => false
  | some x => !(x == 0)

/-- Embedding of the interval loop in `calculateBPM`:
`for (i = 1; i < l.length; i++) intervals.push(l[i] - l[i-1])`. -/
def intervalsOf : List ℚ → List ℚ
  | a :: b :: rest => (b - a) :: intervalsOf (b :: rest)
  | _ => []

/-- Embedding of `calculateBPM`: abstain (`null`) below `beatsToAnalyze`
buffered beats; keep only inter-beat intervals in [0.25, 2.0]; abstain below 3
surviving intervals; convert the median surviving interval to BPM and apply
the acceptance / double-time / half-time rule. -/
def calculateBPM (cfg : Config) (beatTimes : List ℚ) : Option ℚ :=
  if beatTimes.length < cfg.beatsToAnalyze then none
  else
    let intervals := intervalsOf beatTimes
    let validIntervals := intervals.filter (fun i => decide (0.25 ≤ i) && decide (i ≤ 2.0))
    if validIntervals.length < 3 then none
    else
      let sorted := sortQ validIntervals
      let medianInterval := sorted.getD (sorted.length / 2) 0
      let bpm := 60 / medianInterval
      if decide (60 ≤ bpm) && decide (bpm ≤ 200) then some bpm
      else if decide (200 < bpm) && decide (bpm ≤ 400) then some (bpm / 2)
      else if decide (30 ≤ bpm) && decide (bpm < 60) then some (bpm * 2)
      else none

/-- Method 1 of `analyze`: the spectral-flux vote (`fluxBeat`). -/
def fluxVoteB (cfg : Config) (flux : ℚ) (fluxHistory : List ℚ) : Bool :=
  gtThr flux (getAdaptiveThreshold cfg.energyThreshold fluxHistory) &&
  isLocalMaximum flux fluxHistory 3 &&
  decide ((cfg.historySize : ℚ) * 0.3 ≤ (fluxHistory.length : ℚ))

/-- Method 2 of `analyze`: the bass energy-spike vote (`bassBeat`); the
adaptive threshold is scaled by 1.2, and scaling `Infinity` keeps it
`Infinity`. -/
def bassVoteB (cfg : Config) (bassEnergy : ℚ) (bassEnergyHistory : List ℚ) : Bool :=
  cfg.useEnergySpikes &&
  gtThr bassEnergy ((getAdaptiveThreshold cfg.energyThreshold bassEnergyHistory).map
    (fun t => t * 1.2)) &&
  isLocalMaximum bassEnergy bassEnergyHistory 4

/-- Guard of the constant-BPM branch of `analyze`:
`cfg.bpmSyncEnabled && bpmLocked && detectedBPM && nextScheduledBeat !== null`. -/
def lockedGuard (cfg : Config) (s : DState) : Bool :=
  cfg.bpmSyncEnabled && s.bpmLocked && optTruthy s.detectedBPM && s.nextScheduledBeat.isSome

/-- History update at the top of `analyze` (the three `push`/`shift` pairs);
all other fields are untouched. -/
def pushHistories (cfg : Config) (s : DState) (inp : TickInput) : DState :=
  { s with
    fluxHistory := pushCap cfg.historySize s.fluxHistory inp.flux
    energyHistory := pushCap cfg.historySize s.energyHistory inp.intensity
    bassEnergyHistory := pushCap cfg.historySize s.bassEnergyHistory inp.bassEnergy }

/-- Constant-BPM branch of `analyze` (after the history update): if the
sampled time has reached `nextScheduledBeat`, set `lastBeatTime` to the
scheduled instant, advance the schedule by one `60 / bpm` interval and fire
`onBeat(time, 0.8)` under the exception guard. -/
def lockedStep (cfg : Config) (cb : Cb) (s1 : DState) (inp : TickInput) :
    DState × Option Emit × List String :=
  match s1.detectedBPM, s1.nextScheduledBeat with
  | some bpm, some nextScheduledBeat =>
    if decide (nextScheduledBeat ≤ inp.time) then
      let beatInterval := 60 / bpm
      ({ s1 with
          lastBeatTime := some nextScheduledBeat
          nextScheduledBeat := some (nextScheduledBeat + beatInterval) },
        some { time := inp.time, intensity := 0.8, fromLock := true },
        guardedCall cb inp.time 0.8)
    else (s1, none, [])
  | _, _ => (s1, none, [])

/-- The vote count of `analyze`:
`[fluxBeat, bassBeat, onsetBeat].filter(Boolean).length` with the three
methods over the updated histories. -/
def votesOf (cfg : Config) (s1 : DState) (inp : TickInput) : ℕ :=
  ([fluxVoteB cfg inp.flux s1.fluxHistory,
    bassVoteB cfg inp.bassEnergy s1.bassEnergyHistory,
    cfg.useOnsetDetection && inp.onset].filter (fun b => b)).length

/-- Body of the Unlocked firing branch of `analyze`: record the beat time
(bounded buffer of `beatsToAnalyze + 2`), compute the clamped intensity from
the flux-history maximum, fire `onBeat` under the exception guard, then
attempt the one-way BPM lock. -/
def fireBody (cfg : Config) (cb : Cb) (s1 : DState) (time flux : ℚ) :
    DState × Option Emit × List String :=
  let beatTimes := trimFront (cfg.beatsToAnalyze + 2) (s1.beatTimes ++ [time])
  let fluxRatio :=
    if 0 < s1.fluxHistory.length then flux / orOne (maxQ s1.fluxHistory) else 0.5
  let beatIntensity := clamp01 fluxRatio
  let s2 := { s1 with lastBeatTime := some time, beatTimes := beatTimes }
  let s3 :=
    if cfg.bpmSyncEnabled && !s1.bpmLocked && decide (cfg.beatsToAnalyze ≤ beatTimes.length)
    then
      match calculateBPM cfg beatTimes with
      | some b =>
        if b = 0 then s2
        else
          { s2 with
              detectedBPM := some b
              bpmLocked := true
              bpmSyncStartTime := some time
              nextScheduledBeat := some (time + 60 / b) }
      | none => s2
    else s2
  (s3, some { time := time, intensity := beatIntensity, fromLock := false },
    guardedCall cb time beatIntensity)

/-- Detection branch of `analyze` (before the BPM lock): the vote count and
the two-tier separation guard around the firing body. -/
def detectionStep (cfg : Config) (cb : Cb) (s1 : DState) (inp : TickInput) :
    DState × Option Emit × List String :=
  let time := inp.time
  let votes := votesOf cfg s1 inp
  if decide (1 ≤ votes) && sinceGt time s1.lastBeatTime cfg.minBeatSeparation then
    if decide (2 ≤ votes) ||
        (votes == 1 && sinceGt time s1.lastBeatTime (cfg.minBeatSeparation * 1.5)) then
      fireBody cfg cb s1 time inp.flux
    else (s1, none, [])
  else (s1, none, [])

/-- One invocation of `analyze`: update the histories from the sampled frame,
then run either the constant-BPM branch or the detection branch.  The result
carries the post state, the beat (if any) handed to `onBeat`, and the
`console.error` log of this tick. -/
def tickDetector (cfg : Config) (cb : Cb) (s : DState) (inp : TickInput) :
    DState × Option Emit × List String :=
  let s1 := pushHistories cfg s inp
  if lockedGuard cfg s then lockedStep cfg cb s1 inp
  else detectionStep cfg cb s1 inp

/-- A whole run: fold `tickDetector` over a list of tick inputs, collecting
every emitted beat in order (per-tick logs are not accumulated). -/
def runDetector (cfg : Config) (cb : Cb) : DState → List TickInput → DState × List Emit
  | s, [] => (s, [])
  | s, inp :: rest =>
    let r := tickDetector cfg cb s inp
    let rr := runDetector cfg cb r.1 rest
    (rr.1, (match r.2.1 with | some e => [e] | none => []) ++ rr.2)

/-- Beats of a run that were emitted by the detection branch (Unlocked mode). -/
def unlockedEmits (l : List Emit) : List Emit := l.filter (fun e => !e.fromLock)

/-! Spec-side formulations, written from the specification's words; they are
compared with the source-derived definitions in the claim theorems. -/

/-- Spec §4.6 wording of the tempo estimator: once the buffer holds
`beatsToAnalyze` beats, compute consecutive inter-beat intervals, discard
intervals outside [0.25s, 2.0s], abstain below 3 surviving intervals,
otherwise BPM = 60 / median(survivingIntervals), accepted as-is in [60,200],
halved in (200,400], doubled in [30,60), otherwise rejected. -/
def specTempoEstimate (cfg : Config) (beatTimes : List ℚ) : Option ℚ :=
  if beatTimes.length < cfg.beatsToAnalyze then none
  else
    let surviving := (intervalsOf beatTimes).filter (fun i => decide (0.25 ≤ i ∧ i ≤ 2.0))
    if surviving.length < 3 then none
    else
      let bpm := 60 / medianQ surviving
      if 60 ≤ bpm ∧ bpm ≤ 200 then some bpm
      else if 200 < bpm ∧ bpm ≤ 400 then some (bpm / 2)
      else if 30 ≤ bpm ∧ bpm < 60 then some (bpm * 2)
      else none

/-- Spec §4.5 wording of the flux vote: flux above the adaptive threshold of
the flux history (a finite threshold, i.e. past warm-up), a local maximum of
the flux history, and a history at least 30% full. -/
def specFluxVote (cfg : Config) (flux : ℚ) (fluxHistory : List ℚ) : Prop :=
  (∃ t, getAdaptiveThreshold cfg.energyThreshold fluxHistory = some t ∧ t < flux) ∧
  isLocalMaximum flux fluxHistory 3 = true ∧
  (cfg.historySize : ℚ) * 0.3 ≤ (fluxHistory.length : ℚ)

/-- Spec §4.5 wording of the bass-spike vote: spikes enabled, bass energy
above 1.2 times the adaptive threshold of the bass history, and a local
maximum over the last 4 samples. -/
def specBassVote (cfg : Config) (bassEnergy : ℚ) (bassEnergyHistory : List ℚ) : Prop :=
  cfg.useEnergySpikes = true ∧
  (∃ t, getAdaptiveThreshold cfg.energyThreshold bassEnergyHistory = some t ∧
    t * 1.2 < bassEnergy) ∧
  isLocalMaximum bassEnergy bassEnergyHistory 4 = true

/-- Spec §4.5 wording of the onset vote (§4.4 result, gated by its flag). -/
def specOnsetVote (cfg : Config) (inp : TickInput) : Prop :=
  cfg.useOnsetDetection = true ∧ inp.onset = true

/-- Spec wording for "elapsed time since the last beat exceeds `bound`"
(vacuously true before any beat, when the last beat time is `-Infinity`). -/
def specElapsedGt (s : DState) (time bound : ℚ) : Prop :=
  ∀ l, s.lastBeatTime = some l → bound < time - l

/-- Spec §4.5 wording of the Unlocked firing rule: at least one vote and
elapsed > minBeatSeparation, where a lone vote additionally needs
elapsed > 1.5 × minBeatSeparation and two or more votes bypass that stricter
guard.  The votes are taken over the histories as updated by this tick. -/
def specFires (cfg : Config) (s : DState) (inp : TickInput) : Prop :=
  let fh := pushCap cfg.historySize s.fluxHistory inp.flux
  let bh := pushCap cfg.historySize s.bassEnergyHistory inp.bassEnergy
  let fv := specFluxVote cfg inp.flux fh
  let bv := specBassVote cfg inp.bassEnergy bh
  let ov := specOnsetVote cfg inp
  (fv ∨ bv ∨ ov) ∧
  specElapsedGt s inp.time cfg.minBeatSeparation ∧
  ((fv ∧ bv) ∨ (fv ∧ ov) ∨ (bv ∧ ov) ∨
    specElapsedGt s inp.time (cfg.minBeatSeparation * 1.5))

/-- Well-formedness of the tempo fields: whenever the session is Locked, the
lock was produced by the one lock site, so sync is enabled, a nonzero BPM is
recorded and a next beat is scheduled. -/
def WF (cfg : Config) (s : DState) : Prop :=
  s.bpmLocked = true →
    cfg.bpmSyncEnabled = true ∧ (∃ b, s.detectedBPM = some b ∧ b ≠ 0) ∧
    s.nextScheduledBeat.isSome = true

/-! Concrete scenario data used in the closed parts of the claim theorems. -/

/-- Default configuration with the minimum separation of the high preset, so
that a lone onset vote may fire at 0.5s spacing (0.5 > 1.5 × 0.25). -/
def cfg0 : Config := { DEFAULT_CONFIG with minBeatSeparation := 0.25 }

/-- A silent frame carrying only an onset peak, sampled at media time `t`. -/
def onsetInp (t : ℚ) : TickInput :=
  { flux := 0, intensity := 0, bassEnergy := 0, onset := true, time := t, playing := true }

/-- Six ticks at a constant 0.5s spacing, each carrying one onset vote. -/
def sixTicks : List TickInput :=
  [onsetInp 0, onsetInp 0.5, onsetInp 1, onsetInp 1.5, onsetInp 2, onsetInp 2.5]

/-- A session already locked at 120 BPM with the next beat scheduled at 0. -/
def lockedState120 : DState :=
  { initState with bpmLocked := true, detectedBPM := some 120, nextScheduledBeat := some 0 }

/-- A loud frame (nonzero spectral content, onset peak present) at time `t`,
with the media element paused. -/
def loudInp (t f : ℚ) : TickInput :=
  { flux := f, intensity := f, bassEnergy := f, onset := true, time := t, playing := false }

/-- Eight synthetic beat timestamps spaced exactly 0.5s apart. -/
def eightBeatsHalf : List ℚ := [0, 0.5, 1, 1.5, 2, 2.5, 3, 3.5]

/-- Six synthetic beat timestamps spaced exactly 0.25s apart. -/
def sixBeatsQuarter : List ℚ := [0, 0.25, 0.5, 0.75, 1, 1.25]

end BeatDetect

namespace BeatDetect

theorem gtThr_eq_true_iff (x : ℚ) (o : Option ℚ) :
    gtThr x o = true ↔ ∃ t, o = some t ∧ t < x := by
  cases o <;> simp [gtThr]

theorem gtThr_map_eq_true_iff (x c : ℚ) (o : Option ℚ) :
    gtThr x (o.map (fun t => t * c)) = true ↔ ∃ t, o = some t ∧ t * c < x := by
  cases o <;> simp [gtThr]

theorem sinceGt_eq_true_iff (t : ℚ) (lb : Option ℚ) (b : ℚ) :
    sinceGt t lb b = true ↔ ∀ l, lb = some l → b < t - l := by
  cases lb <;> simp [sinceGt]

theorem lockedGuard_of_unlocked (cfg : Config) (s : DState) (h : s.bpmLocked = false) :
    lockedGuard cfg s = false := by
  simp [lockedGuard, h]

theorem tick_unlocked_eq (cfg : Config) (cb : Cb) (s : DState) (inp : TickInput)
    (h : s.bpmLocked = false) :
    tickDetector cfg cb s inp = detectionStep cfg cb (pushHistories cfg s inp) inp := by
  simp [tickDetector, lockedGuard_of_unlocked cfg s h]

theorem lockedGuard_of_wf (cfg : Config) (s : DState) (b : ℚ)
    (h1 : cfg.bpmSyncEnabled = true) (h2 : s.bpmLocked = true)
    (h3 : s.detectedBPM = some b) (h4 : b ≠ 0) (h5 : s.nextScheduledBeat.isSome = true) :
    lockedGuard cfg s = true := by
  simp [lockedGuard, h1, h2, h3, h5, optTruthy, h4]

theorem lockedStep_char (cfg : Config) (cb : Cb) (s1 : DState) (inp : TickInput) (b n : ℚ)
    (hd : s1.detectedBPM = some b) (hn : s1.nextScheduledBeat = some n) :
    lockedStep cfg cb s1 inp =
      if n ≤ inp.time then
        ({ s1 with lastBeatTime := some n, nextScheduledBeat := some (n + 60 / b) },
          some { time := inp.time, intensity := 0.8, fromLock := true },
          guardedCall cb inp.time 0.8)
      else (s1, none, []) := by
  simp only [lockedStep, hd, hn]
  by_cases h : n ≤ inp.time <;> simp [h]

end BeatDetect

namespace BeatDetect

theorem fireBody_emit (cfg : Config) (cb : Cb) (s1 : DState) (time flux : ℚ) :
    (fireBody cfg cb s1 time flux).2.1 =
      some { time := time,
             intensity := clamp01 (if 0 < s1.fluxHistory.length
               then flux / orOne (maxQ s1.fluxHistory) else 0.5),
             fromLock := false } := rfl

theorem fireBody_state (cfg : Config) (cb : Cb) (s1 : DState) (time flux : ℚ) :
    (fireBody cfg cb s1 time flux).1.fluxHistory = s1.fluxHistory ∧
    (fireBody cfg cb s1 time flux).1.energyHistory = s1.energyHistory ∧
    (fireBody cfg cb s1 time flux).1.bassEnergyHistory = s1.bassEnergyHistory ∧
    (fireBody cfg cb s1 time flux).1.lastBeatTime = some time ∧
    (fireBody cfg cb s1 time flux).1.beatTimes =
      trimFront (cfg.beatsToAnalyze + 2) (s1.beatTimes ++ [time]) := by
  simp only [fireBody]
  split <;> (try split) <;> (try split) <;> simp

theorem fireBody_locked_preserve (cfg : Config) (cb : Cb) (s1 : DState) (time flux : ℚ)
    (h : s1.bpmLocked = true) :
    (fireBody cfg cb s1 time flux).1.bpmLocked = true ∧
    (fireBody cfg cb s1 time flux).1.detectedBPM = s1.detectedBPM ∧
    (fireBody cfg cb s1 time flux).1.nextScheduledBeat = s1.nextScheduledBeat := by
  simp only [fireBody]
  simp [h]

theorem fireBody_lock_char (cfg : Config) (cb : Cb) (s1 : DState) (time flux : ℚ)
    (hu : s1.bpmLocked = false)
    (hl : (fireBody cfg cb s1 time flux).1.bpmLocked = true) :
    cfg.bpmSyncEnabled = true ∧
    ∃ b, b ≠ 0 ∧
      calculateBPM cfg ((fireBody cfg cb s1 time flux).1.beatTimes) = some b ∧
      (fireBody cfg cb s1 time flux).1.detectedBPM = some b ∧
      (fireBody cfg cb s1 time flux).1.nextScheduledBeat = some (time + 60 / b) := by
  simp only [fireBody] at hl ⊢
  by_cases hcond : (cfg.bpmSyncEnabled && !s1.bpmLocked &&
      decide (cfg.beatsToAnalyze ≤
        (trimFront (cfg.beatsToAnalyze + 2) (s1.beatTimes ++ [time])).length)) = true
  · rw [if_pos hcond] at hl ⊢
    cases hcalc : calculateBPM cfg (trimFront (cfg.beatsToAnalyze + 2) (s1.beatTimes ++ [time])) with
    | none => rw [hcalc] at hl; simp [hu] at hl
    | some b =>
      rw [hcalc] at hl
      dsimp only at hl ⊢
      by_cases hb0 : b = 0
      · rw [if_pos hb0] at hl; simp [hu] at hl
      · rw [if_neg hb0] at hl ⊢
        rw [Bool.and_eq_true, Bool.and_eq_true] at hcond
        exact ⟨hcond.1.1, b, hb0, by simp [hcalc], by simp, by simp⟩
  · rw [if_neg hcond] at hl
    simp [hu] at hl


theorem lockedStep_cases (cfg : Config) (cb : Cb) (s1 : DState) (inp : TickInput) :
    (∃ bpm nsb, s1.detectedBPM = some bpm ∧ s1.nextScheduledBeat = some nsb ∧
      nsb ≤ inp.time ∧
      lockedStep cfg cb s1 inp =
        ({ s1 with lastBeatTime := some nsb, nextScheduledBeat := some (nsb + 60 / bpm) },
          some { time := inp.time, intensity := 0.8, fromLock := true },
          guardedCall cb inp.time 0.8)) ∨
    lockedStep cfg cb s1 inp = (s1, none, []) := by
  unfold lockedStep
  split
  case h_1 bpm nsb hd hn =>
    split
    case isTrue h => exact Or.inl ⟨bpm, nsb, hd, hn, of_decide_eq_true h, rfl⟩
    case isFalse h => exact Or.inr rfl
  case h_2 => exact Or.inr rfl

theorem detectionStep_eq_or (cfg : Config) (cb : Cb) (s1 : DState) (inp : TickInput) :
    (detectionStep cfg cb s1 inp = fireBody cfg cb s1 inp.time inp.flux ∧
      sinceGt inp.time s1.lastBeatTime cfg.minBeatSeparation = true) ∨
    detectionStep cfg cb s1 inp = (s1, none, []) := by
  simp only [detectionStep]
  split
  case isTrue h1 =>
    split
    case isTrue h2 => exact Or.inl ⟨rfl, ((Bool.and_eq_true _ _).mp h1).2⟩
    case isFalse h2 => exact Or.inr rfl
  case isFalse => exact Or.inr rfl

theorem detectionStep_fires_iff (cfg : Config) (cb : Cb) (s1 : DState) (inp : TickInput) :
    ((detectionStep cfg cb s1 inp).2.1.isSome = true) ↔
      ((decide (1 ≤ votesOf cfg s1 inp) &&
          sinceGt inp.time s1.lastBeatTime cfg.minBeatSeparation) &&
        (decide (2 ≤ votesOf cfg s1 inp) ||
          (votesOf cfg s1 inp == 1 &&
            sinceGt inp.time s1.lastBeatTime (cfg.minBeatSeparation * 1.5)))) = true := by
  simp only [detectionStep]
  split
  case isTrue h1 =>
    split
    case isTrue h2 => simp [fireBody_emit, h1, h2]
    case isFalse h2 => simp [h1, h2]
  case isFalse h1 => simp [h1]


theorem optTruthy_eq_true_iff (o : Option ℚ) :
    optTruthy o = true ↔ ∃ b, o = some b ∧ b ≠ 0 := by
  cases o <;> simp [optTruthy]

theorem lockedGuard_eq_true_iff (cfg : Config) (s : DState) :
    lockedGuard cfg s = true ↔
      cfg.bpmSyncEnabled = true ∧ s.bpmLocked = true ∧
      (∃ b, s.detectedBPM = some b ∧ b ≠ 0) ∧ s.nextScheduledBeat.isSome = true := by
  simp [lockedGuard, optTruthy_eq_true_iff, and_assoc]

theorem tick_fluxHistory (cfg : Config) (cb : Cb) (s : DState) (inp : TickInput) :
    (tickDetector cfg cb s inp).1.fluxHistory =
      pushCap cfg.historySize s.fluxHistory inp.flux := by
  unfold tickDetector
  split
  · rcases lockedStep_cases cfg cb (pushHistories cfg s inp) inp with
      ⟨bpm, nsb, _, _, _, heq⟩ | heq <;> rw [heq] <;> rfl
  · rcases detectionStep_eq_or cfg cb (pushHistories cfg s inp) inp with ⟨heq, _⟩ | heq <;>
      rw [heq]
    · exact (fireBody_state cfg cb (pushHistories cfg s inp) inp.time inp.flux).1
    · rfl

theorem tick_bpmLocked_mono (cfg : Config) (cb : Cb) (s : DState) (inp : TickInput)
    (h : s.bpmLocked = true) : (tickDetector cfg cb s inp).1.bpmLocked = true := by
  unfold tickDetector
  split
  · rcases lockedStep_cases cfg cb (pushHistories cfg s inp) inp with
      ⟨bpm, nsb, _, _, _, heq⟩ | heq <;> rw [heq] <;> exact h
  · rcases detectionStep_eq_or cfg cb (pushHistories cfg s inp) inp with ⟨heq, _⟩ | heq <;>
      rw [heq]
    · exact (fireBody_locked_preserve cfg cb (pushHistories cfg s inp) inp.time inp.flux h).1
    · exact h

@[simp] theorem pushHistories_fluxHistory (cfg : Config) (s : DState) (inp : TickInput) :
    (pushHistories cfg s inp).fluxHistory = pushCap cfg.historySize s.fluxHistory inp.flux :=
  rfl

@[simp] theorem pushHistories_bassEnergyHistory (cfg : Config) (s : DState) (inp : TickInput) :
    (pushHistories cfg s inp).bassEnergyHistory =
      pushCap cfg.historySize s.bassEnergyHistory inp.bassEnergy :=
  rfl

@[simp] theorem pushHistories_lastBeatTime (cfg : Config) (s : DState) (inp : TickInput) :
    (pushHistories cfg s inp).lastBeatTime = s.lastBeatTime := rfl

@[simp] theorem pushHistories_beatTimes (cfg : Config) (s : DState) (inp : TickInput) :
    (pushHistories cfg s inp).beatTimes = s.beatTimes := rfl

@[simp] theorem pushHistories_detectedBPM (cfg : Config) (s : DState) (inp : TickInput) :
    (pushHistories cfg s inp).detectedBPM = s.detectedBPM := rfl

@[simp] theorem pushHistories_bpmLocked (cfg : Config) (s : DState) (inp : TickInput) :
    (pushHistories cfg s inp).bpmLocked = s.bpmLocked := rfl

@[simp] theorem pushHistories_nextScheduledBeat (cfg : Config) (s : DState) (inp : TickInput) :
    (pushHistories cfg s inp).nextScheduledBeat = s.nextScheduledBeat := rfl

theorem tick_WF (cfg : Config) (cb : Cb) (s : DState) (inp : TickInput)
    (h : WF cfg s) : WF cfg (tickDetector cfg cb s inp).1 := by
  intro hl
  unfold tickDetector at hl ⊢
  by_cases hg : lockedGuard cfg s = true
  · rw [if_pos hg] at hl ⊢
    obtain ⟨hsync, hlock, ⟨b, hb, hb0⟩, hns⟩ := (lockedGuard_eq_true_iff cfg s).mp hg
    rcases lockedStep_cases cfg cb (pushHistories cfg s inp) inp with
      ⟨bpm, nsb, hd, hn, ht, heq⟩ | heq <;> rw [heq]
    · exact ⟨hsync, ⟨b, by simp [hb], hb0⟩, by simp⟩
    · exact ⟨hsync, ⟨b, by simp [hb], hb0⟩, by simpa using hns⟩
  · rw [if_neg hg] at hl ⊢
    rcases detectionStep_eq_or cfg cb (pushHistories cfg s inp) inp with ⟨heq, _⟩ | heq <;>
      rw [heq] at hl ⊢
    · by_cases hu : (pushHistories cfg s inp).bpmLocked = true
      · have hp := fireBody_locked_preserve cfg cb (pushHistories cfg s inp) inp.time inp.flux hu
        obtain ⟨hsync, ⟨b, hb, hb0⟩, hns⟩ := h (by simpa using hu)
        refine ⟨hsync, ⟨b, ?_, hb0⟩, ?_⟩
        · rw [hp.2.1]; simpa using hb
        · rw [hp.2.2]; simpa using hns
      · have hu2 : (pushHistories cfg s inp).bpmLocked = false :=
          Bool.eq_false_iff.mpr hu
        obtain ⟨hsync, b, hb0, hcalc, hd, hn⟩ :=
          fireBody_lock_char cfg cb (pushHistories cfg s inp) inp.time inp.flux hu2 hl
        exact ⟨hsync, ⟨b, hd, hb0⟩, by simp [hn]⟩
    · exact h (by simpa using hl)

theorem tick_locked_emit_fromLock (cfg : Config) (cb : Cb) (s : DState) (inp : TickInput)
    (h : s.bpmLocked = true) (hwf : WF cfg s) :
    ∀ e, (tickDetector cfg cb s inp).2.1 = some e → e.fromLock = true := by
  intro e he
  obtain ⟨hsync, ⟨b, hb, hb0⟩, hns⟩ := hwf h
  have hg : lockedGuard cfg s = true :=
    (lockedGuard_eq_true_iff cfg s).mpr ⟨hsync, h, ⟨b, hb, hb0⟩, hns⟩
  unfold tickDetector at he
  rw [if_pos hg] at he
  rcases lockedStep_cases cfg cb (pushHistories cfg s inp) inp with
    ⟨bpm, nsb, _, _, _, heq⟩ | heq <;> rw [heq] at he
  · cases he; rfl
  · cases he


theorem runDetector_cons (cfg : Config) (cb : Cb) (s : DState) (inp : TickInput)
    (rest : List TickInput) :
    runDetector cfg cb s (inp :: rest) =
      ((runDetector cfg cb (tickDetector cfg cb s inp).1 rest).1,
        (match (tickDetector cfg cb s inp).2.1 with | some e => [e] | none => []) ++
          (runDetector cfg cb (tickDetector cfg cb s inp).1 rest).2) := rfl

theorem run_fst_append (cfg : Config) (cb : Cb) (s : DState) (l1 l2 : List TickInput) :
    (runDetector cfg cb s (l1 ++ l2)).1 =
      (runDetector cfg cb (runDetector cfg cb s l1).1 l2).1 := by
  induction l1 generalizing s with
  | nil => rfl
  | cons inp rest ih => simp only [List.cons_append, runDetector_cons]; exact ih _

theorem run_bpmLocked_mono (cfg : Config) (cb : Cb) (l : List TickInput) (s : DState)
    (h : s.bpmLocked = true) : (runDetector cfg cb s l).1.bpmLocked = true := by
  induction l generalizing s with
  | nil => exact h
  | cons inp rest ih =>
    rw [runDetector_cons]
    exact ih _ (tick_bpmLocked_mono cfg cb s inp h)

theorem run_WF (cfg : Config) (cb : Cb) (l : List TickInput) (s : DState)
    (h : WF cfg s) : WF cfg (runDetector cfg cb s l).1 := by
  induction l generalizing s with
  | nil => exact h
  | cons inp rest ih =>
    rw [runDetector_cons]
    exact ih _ (tick_WF cfg cb s inp h)

theorem run_locked_unlockedEmits (cfg : Config) (cb : Cb) (l : List TickInput) (s : DState)
    (h : s.bpmLocked = true) (hwf : WF cfg s) :
    unlockedEmits (runDetector cfg cb s l).2 = [] := by
  induction l generalizing s with
  | nil => rfl
  | cons inp rest ih =>
    rw [runDetector_cons]
    unfold unlockedEmits at ih ⊢
    rw [List.filter_append]
    rw [ih _ (tick_bpmLocked_mono cfg cb s inp h) (tick_WF cfg cb s inp hwf)]
    cases he : (tickDetector cfg cb s inp).2.1 with
    | none => rfl
    | some e =>
      have hfl : e.fromLock = true := tick_locked_emit_fromLock cfg cb s inp h hwf e he
      simp [hfl]


theorem run_unlocked_sep (cfg : Config) (cb : Cb) :
    ∀ (l : List TickInput) (s : DState),
      WF cfg s →
      List.Pairwise (fun a b => a ≤ b) (l.map TickInput.time) →
      (∀ lb, s.lastBeatTime = some lb → ∀ inp2 ∈ l, lb ≤ inp2.time) →
      List.Pairwise (fun a b => cfg.minBeatSeparation < b.time - a.time)
        (unlockedEmits (runDetector cfg cb s l).2) ∧
      (s.bpmLocked = false →
        ∀ lb, s.lastBeatTime = some lb →
          ∀ e ∈ unlockedEmits (runDetector cfg cb s l).2,
            cfg.minBeatSeparation < e.time - lb) := by
  intro l
  induction l with
  | nil =>
    intro s _ _ _
    exact ⟨List.Pairwise.nil, fun _ _ _ e he => absurd he (List.not_mem_nil e)⟩
  | cons inp rest ih =>
    intro s hwf hchain hlb
    have hwf1 : WF cfg (tickDetector cfg cb s inp).1 := tick_WF cfg cb s inp hwf
    rw [List.map_cons, List.pairwise_cons] at hchain
    obtain ⟨hhead, htail⟩ := hchain
    by_cases hlock : s.bpmLocked = true
    · rw [run_locked_unlockedEmits cfg cb (inp :: rest) s hlock hwf]
      exact ⟨List.Pairwise.nil,
        fun hfalse => absurd hlock (by rw [hfalse]; exact Bool.false_ne_true)⟩
    · have hlock2 : s.bpmLocked = false := Bool.eq_false_iff.mpr hlock
      have htick := tick_unlocked_eq cfg cb s inp hlock2
      have hlb1 : ∀ lb, (tickDetector cfg cb s inp).1.lastBeatTime = some lb →
          ∀ inp2 ∈ rest, lb ≤ inp2.time := by
        intro lb hlbeq inp2 hmem
        by_cases hfire : (tickDetector cfg cb s inp).1.lastBeatTime = some inp.time
        · rw [hfire] at hlbeq
          cases hlbeq
          exact hhead inp2.time (List.mem_map.mpr ⟨inp2, hmem, rfl⟩)
        · -- no new beat recorded: lastBeatTime unchanged
          rcases detectionStep_eq_or cfg cb (pushHistories cfg s inp) inp with ⟨heq, _⟩ | heq
          · exact absurd (by
              rw [htick, heq]
              exact (fireBody_state cfg cb (pushHistories cfg s inp) inp.time inp.flux).2.2.2.1)
              hfire
          · rw [htick, heq] at hlbeq
            simp only [pushHistories_lastBeatTime] at hlbeq
            exact hlb lb hlbeq inp2 (List.mem_cons_of_mem inp hmem)
      have ihres := ih (tickDetector cfg cb s inp).1 hwf1 htail hlb1
      rcases detectionStep_eq_or cfg cb (pushHistories cfg s inp) inp with ⟨heq, hsep⟩ | heq
      · -- the tick fires an Unlocked beat at inp.time
        obtain ⟨E, hE1, hEtime, hEfrom⟩ :
            ∃ E, (tickDetector cfg cb s inp).2.1 = some E ∧ E.time = inp.time ∧
              E.fromLock = false := by
          refine ⟨{ time := inp.time,
                    intensity := clamp01 (if 0 < (pushHistories cfg s inp).fluxHistory.length
                      then inp.flux / orOne (maxQ (pushHistories cfg s inp).fluxHistory)
                      else 0.5),
                    fromLock := false }, ?_, rfl, rfl⟩
          rw [htick, heq]
          exact fireBody_emit cfg cb (pushHistories cfg s inp) inp.time inp.flux
        have hlast : (tickDetector cfg cb s inp).1.lastBeatTime = some inp.time := by
          rw [htick, heq]
          exact (fireBody_state cfg cb (pushHistories cfg s inp) inp.time inp.flux).2.2.2.1
        have hrest : ∀ e ∈ unlockedEmits
            (runDetector cfg cb (tickDetector cfg cb s inp).1 rest).2,
            cfg.minBeatSeparation < e.time - inp.time := by
          intro e he
          by_cases hl1 : (tickDetector cfg cb s inp).1.bpmLocked = true
          · rw [run_locked_unlockedEmits cfg cb rest _ hl1 hwf1] at he
            exact absurd he (List.not_mem_nil e)
          · exact ihres.2 (Bool.eq_false_iff.mpr hl1) inp.time hlast e he
        have hrun : unlockedEmits (runDetector cfg cb s (inp :: rest)).2 =
            E :: unlockedEmits (runDetector cfg cb (tickDetector cfg cb s inp).1 rest).2 := by
          unfold unlockedEmits
          rw [runDetector_cons, hE1]
          simp [hEfrom]
        rw [hrun]
        constructor
        · rw [List.pairwise_cons]
          refine ⟨?_, ihres.1⟩
          intro e he
          rw [hEtime]
          exact hrest e he
        · intro _ lb hlbs e he
          have hsep2 : cfg.minBeatSeparation < inp.time - lb := by
            have := (sinceGt_eq_true_iff inp.time
              (pushHistories cfg s inp).lastBeatTime cfg.minBeatSeparation).mp hsep
            exact this lb (by simpa using hlbs)
          rcases List.mem_cons.mp he with he0 | herest
          · rw [he0, hEtime]
            exact hsep2
          · have hlble : lb ≤ inp.time := hlb lb hlbs inp (List.mem_cons_self inp rest)
            have := hrest e herest
            linarith
      · -- no Unlocked beat this tick
        have hnone : (tickDetector cfg cb s inp).2.1 = none := by rw [htick, heq]
        have hstate : (tickDetector cfg cb s inp).1 = pushHistories cfg s inp := by
          rw [htick, heq]
        rw [runDetector_cons]
        unfold unlockedEmits at ihres ⊢
        rw [hnone, List.filter_append]
        simp only [List.filter_nil, List.nil_append]
        refine ⟨ihres.1, ?_⟩
        intro _ lb hlbs e he
        refine ihres.2 ?_ lb ?_ e he
        · rw [hstate]; simpa using hlock2
        · rw [hstate]; simpa using hlbs


theorem thr_ones (k : ℚ) : getAdaptiveThreshold k [1, 1, 1, 1, 1] = some 1 := by
  simp only [getAdaptiveThreshold]
  norm_num [medianQ, sortQ, insertSorted]

theorem ite_decide_and (p q : Prop) [Decidable p] [Decidable q] (a b : Option ℚ) :
    (if (decide p && decide q) = true then a else b) = if p ∧ q then a else b := by
  by_cases hp : p <;> by_cases hq : q <;> simp [hp, hq]

theorem calculateBPM_eq_spec (cfg : Config) (bt : List ℚ) :
    calculateBPM cfg bt = specTempoEstimate cfg bt := by
  have hf : (fun i : ℚ => decide (0.25 ≤ i) && decide (i ≤ 2.0)) =
      (fun i : ℚ => decide (0.25 ≤ i ∧ i ≤ 2.0)) := by
    funext i
    rw [Bool.decide_and]
  simp only [calculateBPM, specTempoEstimate, medianQ, hf]
  by_cases h1 : bt.length < cfg.beatsToAnalyze
  · rw [if_pos h1, if_pos h1]
  · rw [if_neg h1, if_neg h1]
    by_cases h2 :
        ((intervalsOf bt).filter (fun i => decide (0.25 ≤ i ∧ i ≤ 2.0))).length < 3
    · rw [if_pos h2, if_pos h2]
    · rw [if_neg h2, if_neg h2]
      rw [ite_decide_and, ite_decide_and, ite_decide_and]

theorem pushCap_getLast (cap : ℕ) (h : List ℚ) (x : ℚ) (hcap : 1 ≤ cap) :
    (pushCap cap h x).getLast? = some x := by
  simp only [pushCap]
  split
  case isTrue hlen =>
    cases h with
    | nil => simp at hlen; omega
    | cons a rest => simp [List.getLast?_append_cons]
  case isFalse hlen => simp [List.getLast?_append_cons]


/-- C1: in any session whose sampled media times are non-decreasing, any two
beats emitted while the engine is Unlocked are strictly more than
`minBeatSeparation` seconds apart (the 1.5× lone-vote rule only tightens the
guard, so it never permits a closer pair). -/
theorem unlocked_beats_min_separation (cfg : Config) (cb : Cb)
    (inputs : List TickInput)
    (hmono : List.Chain' (fun a b => a ≤ b) (inputs.map TickInput.time)) :
    List.Pairwise (fun a b => cfg.minBeatSeparation < b.time - a.time)
      (unlockedEmits (runDetector cfg cb initState inputs).2) := by
  have hpair : List.Pairwise (fun a b => a ≤ b) (inputs.map TickInput.time) :=
    List.chain'_iff_pairwise.mp hmono
  refine (run_unlocked_sep cfg cb inputs initState ?_ hpair ?_).1
  · intro h
    exact absurd h Bool.false_ne_true
  · intro lb hlb
    exact absurd hlb (by simp [initState])

theorem unlocked_beats_min_separation_w :
    List.Pairwise (fun a b => cfg0.minBeatSeparation < b.time - a.time)
      (unlockedEmits (runDetector cfg0 cbOk initState sixTicks).2) :=
  unlocked_beats_min_separation cfg0 cbOk sixTicks
    (by simp [sixTicks, onsetInp]; norm_num)

/-- C2: the BPM estimator agrees everywhere with the spec's description
(interval computation, [0.25, 2.0] filtering, abstention below 3 surviving
intervals, 60/median with the accept/halve/double rule); 8 beats spaced 0.5s
apart give 120 BPM, intervals of exactly 0.25s give 120 BPM via halving; and a
tick can only move the state from Unlocked to Locked when the estimator
returns a (nonzero) BPM, which is then recorded. -/
theorem bpm_estimator_matches_spec :
    (∀ (cfg : Config) (bt : List ℚ), calculateBPM cfg bt = specTempoEstimate cfg bt) ∧
    calculateBPM DEFAULT_CONFIG eightBeatsHalf = some 120 ∧
    calculateBPM DEFAULT_CONFIG sixBeatsQuarter = some 120 ∧
    (∀ (cfg : Config) (cb : Cb) (s : DState) (inp : TickInput),
      s.bpmLocked = false → (tickDetector cfg cb s inp).1.bpmLocked = true →
      ∃ b, b ≠ 0 ∧
        calculateBPM cfg ((tickDetector cfg cb s inp).1.beatTimes) = some b ∧
        (tickDetector cfg cb s inp).1.detectedBPM = some b) := by
  refine ⟨calculateBPM_eq_spec, by with_unfolding_all rfl, by with_unfolding_all rfl, ?_⟩
  intro cfg cb s inp hu hl
  rw [tick_unlocked_eq cfg cb s inp hu] at hl ⊢
  rcases detectionStep_eq_or cfg cb (pushHistories cfg s inp) inp with ⟨heq, _⟩ | heq <;>
    rw [heq] at hl ⊢
  · obtain ⟨hsync, b, hb0, hcalc, hd, hn⟩ :=
      fireBody_lock_char cfg cb (pushHistories cfg s inp) inp.time inp.flux
        (by simpa using hu) hl
    exact ⟨b, hb0, hcalc, hd⟩
  · simp [hu] at hl

theorem bpm_estimator_matches_spec_w :
    ∃ b, b ≠ 0 ∧
      calculateBPM cfg0
        ((tickDetector cfg0 cbOk (runDetector cfg0 cbOk initState (sixTicks.take 5)).1
          (onsetInp 2.5)).1.beatTimes) = some b ∧
      (tickDetector cfg0 cbOk (runDetector cfg0 cbOk initState (sixTicks.take 5)).1
        (onsetInp 2.5)).1.detectedBPM = some b :=
  bpm_estimator_matches_spec.2.2.2 cfg0 cbOk
    (runDetector cfg0 cbOk initState (sixTicks.take 5)).1 (onsetInp 2.5)
    (by with_unfolding_all rfl) (by with_unfolding_all rfl)

/-- C5: the adaptive threshold estimator returns `+Infinity` (modelled as
`none`) for every history shorter than 5 samples; on the history
[1, 1, 1, 1, 1] it returns exactly 1 for every sensitivity multiplier k
(median 1, MAD 0); and since the flux vote compares with a strict `>`, a flux
value of exactly 1 never triggers the flux vote against that history. -/
theorem adaptive_threshold_props :
    (∀ (k : ℚ) (h : List ℚ), h.length < 5 → getAdaptiveThreshold k h = none) ∧
    (∀ k : ℚ, getAdaptiveThreshold k [1, 1, 1, 1, 1] = some 1) ∧
    (∀ cfg : Config, fluxVoteB cfg 1 [1, 1, 1, 1, 1] = false) := by
  refine ⟨?_, thr_ones, ?_⟩
  · intro k h hlen
    unfold getAdaptiveThreshold
    rw [if_pos hlen]
  · intro cfg
    unfold fluxVoteB
    rw [thr_ones cfg.energyThreshold]
    simp [gtThr]

theorem adaptive_threshold_props_w :
    getAdaptiveThreshold 1.4 [2, 3] = none ∧
    getAdaptiveThreshold 1.4 [1, 1, 1, 1, 1] = some 1 ∧
    fluxVoteB DEFAULT_CONFIG 1 [1, 1, 1, 1, 1] = false :=
  ⟨adaptive_threshold_props.1 1.4 [2, 3] (by norm_num),
   adaptive_threshold_props.2.1 1.4,
   adaptive_threshold_props.2.2 DEFAULT_CONFIG⟩

/-- C7 counterexample: a tick whose input has `playing = false` (paused media
element) still performs the full analysis — the sampled frame is appended to
the flux history and the state changes, refuting the claim that a paused tick
performs no analysis. -/
theorem paused_tick_analyzes_cex :
    (loudInp 0 1).playing = false ∧
    (tickDetector DEFAULT_CONFIG cbOk initState (loudInp 0 1)).1.fluxHistory = [1] ∧
    initState.fluxHistory = [] ∧
    (tickDetector DEFAULT_CONFIG cbOk initState (loudInp 0 1)).1 ≠ initState := by
  refine ⟨rfl, by with_unfolding_all rfl, rfl, ?_⟩
  with_unfolding_all decide

/-- C7 amended: `analyze` never reads the media element's playing flag — a
tick behaves identically whether the source is playing or paused (polling and
analysis continue either way), and on every tick the sampled frame's flux is
appended to the flux history (its newest entry). -/
theorem tick_ignores_playing :
    (∀ (cfg : Config) (cb : Cb) (s : DState) (inp : TickInput) (b : Bool),
      tickDetector cfg cb s { inp with playing := b } = tickDetector cfg cb s inp) ∧
    (∀ (cfg : Config) (cb : Cb) (s : DState) (inp : TickInput),
      1 ≤ cfg.historySize →
      ((tickDetector cfg cb s inp).1.fluxHistory).getLast? = some inp.flux) := by
  constructor
  · intro cfg cb s inp b
    cases inp
    rfl
  · intro cfg cb s inp hcap
    rw [tick_fluxHistory]
    exact pushCap_getLast cfg.historySize s.fluxHistory inp.flux hcap

theorem tick_ignores_playing_w :
    tickDetector DEFAULT_CONFIG cbOk initState (loudInp 0 1) =
      tickDetector DEFAULT_CONFIG cbOk initState
        { loudInp 0 1 with playing := true } ∧
    ((tickDetector DEFAULT_CONFIG cbOk initState (loudInp 0 1)).1.fluxHistory).getLast? =
      some 1 :=
  ⟨(tick_ignores_playing.1 DEFAULT_CONFIG cbOk initState (loudInp 0 1) true).symm,
   tick_ignores_playing.2 DEFAULT_CONFIG cbOk initState (loudInp 0 1) (by decide)⟩


theorem tick_locked_eq (cfg : Config) (cb : Cb) (s : DState) (inp : TickInput)
    (hg : lockedGuard cfg s = true) :
    tickDetector cfg cb s inp = lockedStep cfg cb (pushHistories cfg s inp) inp := by
  simp only [tickDetector]
  rw [if_pos hg]

/-- C3: the Unlocked→Locked transition is one-way (a single tick, and any run
extension, preserves Locked), and feeding exactly `beatsToAnalyze` beats at a
constant valid interval of 0.5s locks exactly once — Unlocked after 5 beats,
Locked after the 6th — with `nextScheduledBeat = lastBeatTime + 60/bpm` at the
moment of the transition. -/
theorem lock_transition_once :
    (∀ (cfg : Config) (cb : Cb) (s : DState) (inp : TickInput),
      s.bpmLocked = true → (tickDetector cfg cb s inp).1.bpmLocked = true) ∧
    (∀ (cfg : Config) (cb : Cb) (s : DState) (l1 l2 : List TickInput),
      (runDetector cfg cb s l1).1.bpmLocked = true →
      (runDetector cfg cb s (l1 ++ l2)).1.bpmLocked = true) ∧
    (runDetector cfg0 cbOk initState (sixTicks.take 5)).1.bpmLocked = false ∧
    (runDetector cfg0 cbOk initState sixTicks).1.bpmLocked = true ∧
    (runDetector cfg0 cbOk initState sixTicks).1.detectedBPM = some 120 ∧
    (runDetector cfg0 cbOk initState sixTicks).1.lastBeatTime = some 2.5 ∧
    (runDetector cfg0 cbOk initState sixTicks).1.nextScheduledBeat =
      some (2.5 + 60 / 120) := by
  refine ⟨tick_bpmLocked_mono, ?_, ?_, ?_, ?_, ?_, ?_⟩
  · intro cfg cb s l1 l2 h
    rw [run_fst_append]
    exact run_bpmLocked_mono cfg cb l2 _ h
  · with_unfolding_all rfl
  · with_unfolding_all rfl
  · with_unfolding_all rfl
  · with_unfolding_all rfl
  · with_unfolding_all rfl

theorem lock_transition_once_w :
    (tickDetector DEFAULT_CONFIG cbOk lockedState120 (loudInp 10 3)).1.bpmLocked = true ∧
    (runDetector DEFAULT_CONFIG cbOk lockedState120
      ([loudInp 10 3] ++ [loudInp 11 4])).1.bpmLocked = true :=
  ⟨lock_transition_once.1 DEFAULT_CONFIG cbOk lockedState120 (loudInp 10 3) rfl,
   lock_transition_once.2.1 DEFAULT_CONFIG cbOk lockedState120 [loudInp 10 3]
     [loudInp 11 4] (by with_unfolding_all rfl)⟩

/-- C4: once Locked with tempo `b` and `nextScheduledBeat = n`, a tick whose
sampled time has reached `n` fires exactly the scheduled beat — the callback
gets the sampled time with fixed intensity 0.8, `lastBeatTime` is set to the
scheduled instant `n` (not the sampled time) and the schedule advances by
exactly `60/b`; a tick before `n` fires nothing and moves nothing; the lock
fields persist; and none of this depends on the injected spectral content. -/
theorem locked_scheduler_fires (cfg : Config) (cb : Cb) (s : DState) (inp : TickInput)
    (b n : ℚ) (h1 : cfg.bpmSyncEnabled = true) (h2 : s.bpmLocked = true)
    (h3 : s.detectedBPM = some b) (h4 : b ≠ 0) (h5 : s.nextScheduledBeat = some n) :
    (n ≤ inp.time →
      (tickDetector cfg cb s inp).2.1 =
        some { time := inp.time, intensity := 0.8, fromLock := true } ∧
      (tickDetector cfg cb s inp).1.lastBeatTime = some n ∧
      (tickDetector cfg cb s inp).1.nextScheduledBeat = some (n + 60 / b)) ∧
    (inp.time < n →
      (tickDetector cfg cb s inp).2.1 = none ∧
      (tickDetector cfg cb s inp).1.lastBeatTime = s.lastBeatTime ∧
      (tickDetector cfg cb s inp).1.nextScheduledBeat = some n) ∧
    (tickDetector cfg cb s inp).1.detectedBPM = some b ∧
    (tickDetector cfg cb s inp).1.bpmLocked = true ∧
    (∀ inp2 : TickInput, inp2.time = inp.time →
      (tickDetector cfg cb s inp2).2.1 = (tickDetector cfg cb s inp).2.1 ∧
      (tickDetector cfg cb s inp2).1.lastBeatTime =
        (tickDetector cfg cb s inp).1.lastBeatTime ∧
      (tickDetector cfg cb s inp2).1.nextScheduledBeat =
        (tickDetector cfg cb s inp).1.nextScheduledBeat) := by
  have hg : lockedGuard cfg s = true :=
    (lockedGuard_eq_true_iff cfg s).mpr ⟨h1, h2, ⟨b, h3, h4⟩, by simp [h5]⟩
  have hc := lockedStep_char cfg cb (pushHistories cfg s inp) inp b n
    (by simpa using h3) (by simpa using h5)
  rw [tick_locked_eq cfg cb s inp hg, hc]
  refine ⟨?_, ?_, ?_, ?_, ?_⟩
  · intro ht
    rw [if_pos ht]
    exact ⟨rfl, rfl, rfl⟩
  · intro ht
    rw [if_neg (not_le.mpr ht)]
    exact ⟨rfl, by simp, by simpa using h5⟩
  · by_cases ht : n ≤ inp.time
    · rw [if_pos ht]; simpa using h3
    · rw [if_neg ht]; simpa using h3
  · by_cases ht : n ≤ inp.time
    · rw [if_pos ht]; simpa using h2
    · rw [if_neg ht]; simpa using h2
  · intro inp2 htime
    have hc2 := lockedStep_char cfg cb (pushHistories cfg s inp2) inp2 b n
      (by simpa using h3) (by simpa using h5)
    rw [tick_locked_eq cfg cb s inp2 hg, hc2, htime]
    by_cases ht : n ≤ inp.time
    · rw [if_pos ht, if_pos ht]
      exact ⟨rfl, rfl, rfl⟩
    · rw [if_neg ht, if_neg ht]
      exact ⟨rfl, by simp, rfl⟩

theorem locked_scheduler_fires_w :
    (tickDetector DEFAULT_CONFIG cbOk lockedState120 (loudInp 10 3)).2.1 =
      some { time := 10, intensity := 0.8, fromLock := true } ∧
    (tickDetector DEFAULT_CONFIG cbOk lockedState120 (loudInp 10 3)).1.lastBeatTime =
      some 0 ∧
    (tickDetector DEFAULT_CONFIG cbOk lockedState120
      (loudInp 10 3)).1.nextScheduledBeat = some (0 + 60 / 120) :=
  (locked_scheduler_fires DEFAULT_CONFIG cbOk lockedState120 (loudInp 10 3) 120 0
    rfl rfl rfl (by norm_num) rfl).1 (by norm_num [loudInp])

/-- C10: in Locked mode a tick emits at most one beat — even when the sampled
time has passed several scheduled instants, the tick fires once and the
schedule advances by exactly one `60/b` interval, so overdue beats drip out
one per subsequent tick: three ticks sampled at time 10 against a schedule
anchored at 0 with 0.5s spacing emit exactly three beats and leave the
schedule at 1.5. -/
theorem locked_one_beat_per_tick :
    (∀ (cfg : Config) (cb : Cb) (s : DState) (inp : TickInput) (b n : ℚ),
      cfg.bpmSyncEnabled = true → s.bpmLocked = true → s.detectedBPM = some b →
      0 < b → s.nextScheduledBeat = some n →
      n + 2 * (60 / b) ≤ inp.time →
      (tickDetector cfg cb s inp).2.1 =
        some { time := inp.time, intensity := 0.8, fromLock := true } ∧
      (tickDetector cfg cb s inp).1.nextScheduledBeat = some (n + 60 / b)) ∧
    (runDetector DEFAULT_CONFIG cbOk lockedState120
        [loudInp 10 3, loudInp 10 4, loudInp 10 5]).2 =
      [{ time := 10, intensity := 0.8, fromLock := true },
       { time := 10, intensity := 0.8, fromLock := true },
       { time := 10, intensity := 0.8, fromLock := true }] ∧
    (runDetector DEFAULT_CONFIG cbOk lockedState120
      [loudInp 10 3, loudInp 10 4, loudInp 10 5]).1.nextScheduledBeat = some 1.5 := by
  refine ⟨?_, by with_unfolding_all rfl, by with_unfolding_all rfl⟩
  intro cfg cb s inp b n h1 h2 h3 hb h5 hover
  have hg : lockedGuard cfg s = true :=
    (lockedGuard_eq_true_iff cfg s).mpr ⟨h1, h2, ⟨b, h3, ne_of_gt hb⟩, by simp [h5]⟩
  have hc := lockedStep_char cfg cb (pushHistories cfg s inp) inp b n
    (by simpa using h3) (by simpa using h5)
  rw [tick_locked_eq cfg cb s inp hg, hc]
  have hpos : 0 < 60 / b := by positivity
  have ht : n ≤ inp.time := by linarith
  rw [if_pos ht]
  exact ⟨rfl, rfl⟩

theorem locked_one_beat_per_tick_w :
    (tickDetector DEFAULT_CONFIG cbOk lockedState120 (loudInp 10 3)).2.1 =
      some { time := 10, intensity := 0.8, fromLock := true } ∧
    (tickDetector DEFAULT_CONFIG cbOk lockedState120
      (loudInp 10 3)).1.nextScheduledBeat = some (0 + 60 / 120) :=
  locked_one_beat_per_tick.1 DEFAULT_CONFIG cbOk lockedState120 (loudInp 10 3) 120 0
    rfl rfl rfl (by norm_num) rfl (by norm_num [loudInp])


theorem specFluxVote_iff (cfg : Config) (flux : ℚ) (fh : List ℚ) :
    specFluxVote cfg flux fh ↔ fluxVoteB cfg flux fh = true := by
  unfold specFluxVote fluxVoteB
  rw [Bool.and_eq_true, Bool.and_eq_true, gtThr_eq_true_iff]
  simp [and_assoc]

theorem specBassVote_iff (cfg : Config) (bassEnergy : ℚ) (bh : List ℚ) :
    specBassVote cfg bassEnergy bh ↔ bassVoteB cfg bassEnergy bh = true := by
  unfold specBassVote bassVoteB
  rw [Bool.and_eq_true, Bool.and_eq_true, gtThr_map_eq_true_iff]
  simp [and_assoc]

theorem specOnsetVote_iff (cfg : Config) (inp : TickInput) :
    specOnsetVote cfg inp ↔ (cfg.useOnsetDetection && inp.onset) = true := by
  unfold specOnsetVote
  rw [Bool.and_eq_true]

theorem specElapsedGt_iff (s : DState) (t bound : ℚ) :
    specElapsedGt s t bound ↔ sinceGt t s.lastBeatTime bound = true := by
  unfold specElapsedGt
  rw [sinceGt_eq_true_iff]

theorem fire_guard_iff (fv bv ov s1b s15 : Bool) :
    (((decide (1 ≤ ([fv, bv, ov].filter (fun b => b)).length) && s1b) &&
      (decide (2 ≤ ([fv, bv, ov].filter (fun b => b)).length) ||
        (([fv, bv, ov].filter (fun b => b)).length == 1 && s15))) = true) ↔
      ((fv = true ∨ bv = true ∨ ov = true) ∧ s1b = true ∧
        ((fv = true ∧ bv = true) ∨ (fv = true ∧ ov = true) ∨ (bv = true ∧ ov = true) ∨
          s15 = true)) := by
  cases fv <;> cases bv <;> cases ov <;> cases s1b <;> cases s15 <;> simp

/-- C6: with the engine Unlocked, a tick fires a beat exactly when the spec's
voting rule says so: at least one of the flux, bass-spike and onset votes
(each with its stated side conditions — 30% history fill for flux,
`useEnergySpikes`, the 1.2× threshold factor and 4-sample local maximum for
bass) and elapsed time beyond `minBeatSeparation`, where a lone vote
additionally needs elapsed time beyond 1.5 × `minBeatSeparation` and two or
more votes bypass that stricter guard. -/
theorem unlocked_fire_iff (cfg : Config) (cb : Cb) (s : DState) (inp : TickInput)
    (hu : s.bpmLocked = false) :
    ((tickDetector cfg cb s inp).2.1.isSome = true) ↔ specFires cfg s inp := by
  rw [tick_unlocked_eq cfg cb s inp hu, detectionStep_fires_iff]
  unfold votesOf
  simp only [pushHistories_fluxHistory, pushHistories_bassEnergyHistory,
    pushHistories_lastBeatTime]
  rw [fire_guard_iff]
  unfold specFires
  simp only [specFluxVote_iff, specBassVote_iff, specOnsetVote_iff, specElapsedGt_iff]

theorem unlocked_fire_iff_w :
    (tickDetector cfg0 cbOk initState (onsetInp 0)).2.1.isSome = true :=
  (unlocked_fire_iff cfg0 cbOk initState (onsetInp 0) rfl).mpr
    (by
      refine ⟨Or.inr (Or.inr ⟨rfl, rfl⟩), ?_, Or.inr (Or.inr (Or.inr ?_))⟩ <;>
        · intro l hl
          exact absurd hl (by simp [initState]))


theorem clamp01_nonneg (x : ℚ) : 0 ≤ clamp01 x :=
  le_min (by norm_num) (le_max_left 0 x)

theorem clamp01_le_one (x : ℚ) : clamp01 x ≤ 1 := min_le_left 1 (max 0 x)

theorem mem_le_maxQ : ∀ (l : List ℚ), ∀ x ∈ l, x ≤ maxQ l := by
  intro l
  induction l with
  | nil => intro x hx; exact absurd hx (List.not_mem_nil x)
  | cons a rest ih =>
    intro x hx
    cases rest with
    | nil =>
      rcases List.mem_singleton.mp hx with h
      rw [h]
      exact le_of_eq rfl
    | cons b r =>
      rcases List.mem_cons.mp hx with h | h
      · rw [h]
        exact le_max_left a (maxQ (b :: r))
      · exact le_trans (ih x h) (le_max_right a (maxQ (b :: r)))

theorem pushCap_mem (cap : ℕ) (h : List ℚ) (x : ℚ)
    (hne : pushCap cap h x ≠ []) : x ∈ pushCap cap h x := by
  simp only [pushCap] at hne ⊢
  split at hne
  case isTrue hlen =>
    rw [if_pos hlen]
    cases h with
    | nil => simp at hne
    | cons a rest => simp
  case isFalse hlen =>
    rw [if_neg hlen]
    simp

/-- C8: every beat fired while Unlocked carries an intensity in [0, 1], equal
to clamp01(currentFlux / max(fluxHistory)) over the tick's updated flux
history whenever that history is nonempty (the source's `|| 1` guard replaces
a zero maximum by 1; the quotient convention `x / 0 = 0` makes the spec's
formula agree with it, since the current flux is itself in the history). -/
theorem unlocked_intensity_clamped (cfg : Config) (cb : Cb) (s : DState)
    (inp : TickInput) (e : Emit) (hu : s.bpmLocked = false)
    (he : (tickDetector cfg cb s inp).2.1 = some e) :
    0 ≤ e.intensity ∧ e.intensity ≤ 1 ∧
    ((tickDetector cfg cb s inp).1.fluxHistory ≠ [] →
      e.intensity = clamp01 (inp.flux / maxQ ((tickDetector cfg cb s inp).1.fluxHistory))) := by
  rw [tick_unlocked_eq cfg cb s inp hu] at he ⊢
  rcases detectionStep_eq_or cfg cb (pushHistories cfg s inp) inp with ⟨heq, _⟩ | heq <;>
    rw [heq] at he ⊢
  · rw [fireBody_emit] at he
    have hei : e.intensity =
        clamp01 (if 0 < (pushHistories cfg s inp).fluxHistory.length
          then inp.flux / orOne (maxQ (pushHistories cfg s inp).fluxHistory) else 0.5) := by
      cases he
      rfl
    refine ⟨hei ▸ clamp01_nonneg _, hei ▸ clamp01_le_one _, ?_⟩
    rw [(fireBody_state cfg cb (pushHistories cfg s inp) inp.time inp.flux).1]
    intro hne
    have hlen : 0 < (pushHistories cfg s inp).fluxHistory.length :=
      List.length_pos.mpr hne
    rw [hei, if_pos hlen]
    by_cases hm : maxQ (pushHistories cfg s inp).fluxHistory = 0
    · have hmem : inp.flux ∈ (pushHistories cfg s inp).fluxHistory :=
        pushCap_mem cfg.historySize s.fluxHistory inp.flux hne
      have hle : inp.flux ≤ 0 := hm ▸ mem_le_maxQ _ inp.flux hmem
      rw [hm]
      unfold orOne
      rw [if_pos rfl]
      have h1 : inp.flux / (1 : ℚ) = inp.flux := div_one inp.flux
      have h2 : inp.flux / (0 : ℚ) = 0 := div_zero inp.flux
      rw [h1, h2]
      unfold clamp01
      rw [max_eq_left hle, max_eq_left le_rfl]
    · unfold orOne
      rw [if_neg hm]
  · exact absurd he (by simp)

theorem unlocked_intensity_clamped_w :
    0 ≤ Emit.intensity { time := 0, intensity := 0, fromLock := false } ∧
    Emit.intensity { time := 0, intensity := 0, fromLock := false } ≤ 1 ∧
    ((tickDetector cfg0 cbOk initState (onsetInp 0)).1.fluxHistory ≠ [] →
      Emit.intensity { time := 0, intensity := 0, fromLock := false } =
        clamp01 ((onsetInp 0).flux /
          maxQ ((tickDetector cfg0 cbOk initState (onsetInp 0)).1.fluxHistory))) :=
  unlocked_intensity_clamped cfg0 cbOk initState (onsetInp 0)
    { time := 0, intensity := 0, fromLock := false } rfl (by with_unfolding_all rfl)


theorem fireBody_cb (cfg : Config) (cb cb2 : Cb) (s1 : DState) (time flux : ℚ) :
    (fireBody cfg cb s1 time flux).1 = (fireBody cfg cb2 s1 time flux).1 ∧
    (fireBody cfg cb s1 time flux).2.1 = (fireBody cfg cb2 s1 time flux).2.1 :=
  ⟨rfl, rfl⟩

theorem lockedStep_cb (cfg : Config) (cb cb2 : Cb) (s1 : DState) (inp : TickInput) :
    (lockedStep cfg cb s1 inp).1 = (lockedStep cfg cb2 s1 inp).1 ∧
    (lockedStep cfg cb s1 inp).2.1 = (lockedStep cfg cb2 s1 inp).2.1 := by
  rcases hd : s1.detectedBPM with _ | bpm <;> rcases hn : s1.nextScheduledBeat with _ | nsb <;>
    simp [lockedStep, hd, hn]
  by_cases hc : nsb ≤ inp.time <;> simp [hc]

theorem detectionStep_cb (cfg : Config) (cb cb2 : Cb) (s1 : DState) (inp : TickInput) :
    (detectionStep cfg cb s1 inp).1 = (detectionStep cfg cb2 s1 inp).1 ∧
    (detectionStep cfg cb s1 inp).2.1 = (detectionStep cfg cb2 s1 inp).2.1 := by
  simp only [detectionStep]
  by_cases h1 : ((decide (1 ≤ votesOf cfg s1 inp) &&
      sinceGt inp.time s1.lastBeatTime cfg.minBeatSeparation)) = true
  · rw [if_pos h1, if_pos h1]
    by_cases h2 : ((decide (2 ≤ votesOf cfg s1 inp) ||
        (votesOf cfg s1 inp == 1 &&
          sinceGt inp.time s1.lastBeatTime (cfg.minBeatSeparation * 1.5)))) = true
    · rw [if_pos h2, if_pos h2]
      exact fireBody_cb cfg cb cb2 s1 inp.time inp.flux
    · rw [if_neg h2, if_neg h2]
      exact ⟨rfl, rfl⟩
  · rw [if_neg h1, if_neg h1]
    exact ⟨rfl, rfl⟩

theorem tick_cb (cfg : Config) (cb cb2 : Cb) (s : DState) (inp : TickInput) :
    (tickDetector cfg cb s inp).1 = (tickDetector cfg cb2 s inp).1 ∧
    (tickDetector cfg cb s inp).2.1 = (tickDetector cfg cb2 s inp).2.1 := by
  simp only [tickDetector]
  by_cases hg : lockedGuard cfg s = true
  · rw [if_pos hg, if_pos hg]
    exact lockedStep_cb cfg cb cb2 (pushHistories cfg s inp) inp
  · rw [if_neg hg, if_neg hg]
    exact detectionStep_cb cfg cb cb2 (pushHistories cfg s inp) inp

theorem run_cb (cfg : Config) (cb cb2 : Cb) (l : List TickInput) (s : DState) :
    runDetector cfg cb s l = runDetector cfg cb2 s l := by
  induction l generalizing s with
  | nil => rfl
  | cons inp rest ih =>
    rw [runDetector_cons, runDetector_cons, (tick_cb cfg cb cb2 s inp).1,
      (tick_cb cfg cb cb2 s inp).2, ih]

/-- C9: the beat emitter is exception-isolated — the post state and the
emitted beat of any tick (and hence of any whole run) are identical for any
two callbacks, throwing or not, so a throw on beat N leaves the tick's state
updates intact and cannot prevent beat N+1; moreover whenever a beat is
emitted against a throwing callback, the thrown message is caught and turned
into the tick's error log instead of propagating. -/
theorem callback_exception_isolated :
    (∀ (cfg : Config) (s : DState) (inp : TickInput) (cb cb2 : Cb),
      (tickDetector cfg cb s inp).1 = (tickDetector cfg cb2 s inp).1 ∧
      (tickDetector cfg cb s inp).2.1 = (tickDetector cfg cb2 s inp).2.1) ∧
    (∀ (cfg : Config) (s : DState) (l : List TickInput) (cb cb2 : Cb),
      runDetector cfg cb s l = runDetector cfg cb2 s l) ∧
    (∀ (cfg : Config) (s : DState) (inp : TickInput) (m : String) (e : Emit),
      (tickDetector cfg (fun _ _ => Except.error m) s inp).2.1 = some e →
      (tickDetector cfg (fun _ _ => Except.error m) s inp).2.2 =
        ["Beat callback error: " ++ m]) := by
  refine ⟨fun cfg s inp cb cb2 => tick_cb cfg cb cb2 s inp,
    fun cfg s l cb cb2 => run_cb cfg cb cb2 l s, ?_⟩
  intro cfg s inp m e he
  simp only [tickDetector] at he ⊢
  by_cases hg : lockedGuard cfg s = true
  · rw [if_pos hg] at he ⊢
    rcases lockedStep_cases cfg (fun _ _ => Except.error m) (pushHistories cfg s inp) inp
      with ⟨bpm, nsb, _, _, _, heq⟩ | heq <;> rw [heq] at he ⊢
    · rfl
    · exact absurd he (by simp)
  · rw [if_neg hg] at he ⊢
    rcases detectionStep_eq_or cfg (fun _ _ => Except.error m) (pushHistories cfg s inp) inp
      with ⟨heq, _⟩ | heq <;> rw [heq] at he ⊢
    · rfl
    · exact absurd he (by simp)

theorem callback_exception_isolated_w :
    (tickDetector DEFAULT_CONFIG (fun _ _ => Except.error "boom") lockedState120
      (loudInp 10 3)).2.2 = ["Beat callback error: " ++ "boom"] :=
  callback_exception_isolated.2.2 DEFAULT_CONFIG lockedState120 (loudInp 10 3) "boom"
    { time := 10, intensity := 0.8, fromLock := true } (by with_unfolding_all rfl)

end BeatDetect
